import Mathlib

/-!
Verification of the ProcIsoCity dossier analytics/comparison engine
(`tools/procisocity_compare.py`, `tools/procisocity_insights.py`).

Floats are modelled as exact rationals: a Python float value is either a
finite rational, an infinity, or a NaN (`PyFloat`).  Rounding of decimal
literals to binary doubles is idealised away (the parsed value is kept
exact); the only rounding rule that matters for any property below is the
overflow of a decimal literal to infinity, which is modelled with the exact
IEEE-754 double overflow threshold 2^1024 - 2^970.
-/

set_option maxRecDepth 8192

namespace ProcIso

attribute [local semireducible] Rat.add Rat.mul Rat.sub Rat.inv Rat.ofScientific

/-- Result classification of CPython `float(str)` on a stripped string:
a finite value (kept exact), an infinity, or a NaN. -/
inductive PyFloat where
  | finite (q : ℚ)
  | inf
  | neginf
  | nan
deriving DecidableEq, Repr

/-- Whether a Python float value is finite (`math.isfinite`). -/
def PyFloat.isFinite : PyFloat → Bool
  | .finite _ => true
  | _ => false

/-- Greedy scan of leading decimal digits of a char list: returns the value
of the digit run, the number of digits consumed, and the rest. -/
def takeDigits : List Char → ℕ → ℕ → ℕ × ℕ × List Char
  | [], acc, cnt => (acc, cnt, [])
  | c :: rest, acc, cnt =>
    if c.isDigit then takeDigits rest (acc * 10 + (c.toNat - 48)) (cnt + 1)
    else (acc, cnt, c :: rest)

/-- The smallest magnitude at which CPython `float(str)` overflows to an
infinity: the IEEE-754 binary64 rounding threshold, written out as a literal
so that it evaluates cheaply (see `overflowBound_eq` below). -/
def overflowBound : ℕ :=
  179769313486231580793728971405303415079934132710037826936173778980444968292764750946649017977587207096330286416692887910946555547851940402630657488671505820681908902000708383676273854845817711531764475730270069855571366959622842914819860834936475292719074168444365510704342711559699508093042880177904174497792

/-- Whether an exact rational overflows the double range (|q| ≥ 2^1024 - 2^970). -/
def pyOverflows (q : ℚ) : Bool := overflowBound * q.den ≤ q.num.natAbs

/-- Model of CPython `float(body)` for an already-stripped, sign-free,
lower-cased body: `"inf"`, `"infinity"`, `"nan"`, or a decimal literal
`digits [. digits] [e [sign] digits]` with at least one mantissa digit.
Returns `none` where CPython raises `ValueError`.  (CPython additionally
allows single underscores between digits; that corner is not modelled.) -/
def pyFloatBody (chars : List Char) : Option PyFloat :=
  if chars = ['i', 'n', 'f'] ∨ chars = ['i', 'n', 'f', 'i', 'n', 'i', 't', 'y'] then
    some .inf
  else if chars = ['n', 'a', 'n'] then
    some .nan
  else
    let (ip, ic, rest) := takeDigits chars 0 0
    let (fp, fc, rest2) :=
      match rest with
      | '.' :: r => takeDigits r 0 0
      | _ => (0, 0, rest)
    if ic + fc = 0 then none
    else
      let mantissa : ℚ := ((ip : ℚ) * 10 ^ fc + (fp : ℚ)) / 10 ^ fc
      match rest2 with
      | [] => some (.finite mantissa)
      | 'e' :: r =>
        let (esign, r2) :=
          match r with
          | '+' :: r2 => ((1 : ℤ), r2)
          | '-' :: r2 => ((-1 : ℤ), r2)
          | _ => ((1 : ℤ), r)
        let (ev, ec, rest3) := takeDigits r2 0 0
        if ec = 0 ∨ rest3 ≠ [] then none
        else
          let v : ℚ := mantissa * 10 ^ (esign * ev)
          if pyOverflows v then some .inf else some (.finite v)
      | _ => none

/-- Python `str.strip()` on a char list: drop whitespace at both ends. -/
def pyStrip (cs : List Char) : List Char :=
  ((cs.dropWhile Char.isWhitespace).reverse.dropWhile Char.isWhitespace).reverse

/-- Python `str.lower()` on a char list (ASCII model). -/
def lowerChars (cs : List Char) : List Char := cs.map Char.toLower

/-- Model of CPython `float(str)` on a stripped char list: optional sign,
then a body (`pyFloatBody`), case-insensitively. -/
def pyFloatOfChars (cs : List Char) : Option PyFloat :=
  match lowerChars cs with
  | '+' :: rest => pyFloatBody rest
  | '-' :: rest =>
    match pyFloatBody rest with
    | some (.finite q) => some (.finite (-q))
    | some .inf => some .neginf
    | some .neginf => some .inf
    | some .nan => some .nan
    | none => none
  | rest => pyFloatBody rest

/-- The sentinel strings treated as absent by both tools' `_to_float`. -/
def sentinels : List String := ["nan", "null", "none"]

/-- The stripped input is empty or a sentinel (`s == "" or s.lower() in
{"nan", "null", "none"}`, after `s.strip()`). -/
def isAbsentToken (t : List Char) : Bool :=
  t = [] ∨ (sentinels.map String.toList).contains (lowerChars t)

/-- Function `procisocity_compare._to_float`: strip, sentinel check, parse, and
reject non-finite results (`math.isfinite` guard). -/
def toFloatCompare (s : String) : Option PyFloat :=
  let t := pyStrip s.toList
  if isAbsentToken t then none
  else
    match pyFloatOfChars t with
    | none => none
    | some v => if v.isFinite then some v else none

/-- Function `procisocity_insights._to_float`: strip, sentinel check, parse — with
NO finiteness guard: a non-finite parse result is returned as-is. -/
def toFloatInsights (s : String) : Option PyFloat :=
  let t := pyStrip s.toList
  if isAbsentToken t then none
  else pyFloatOfChars t

/-- The finite rational produced by `procisocity_compare._to_float`, when any. -/
def toFloatCompareQ (s : String) : Option ℚ :=
  match toFloatCompare s with
  | some (.finite q) => some q
  | _ => none

/-- Truncation toward zero, the behaviour of Python `int()` on a finite
float: the numerator divided by the denominator, rounding toward zero. -/
def truncToward0 (q : ℚ) : ℤ := q.num.tdiv q.den

/-- Function `procisocity_compare._to_int`: `int(_to_float(s))`; the argument is
always finite (compare's `_to_float` guarantees it), so `int` truncates. -/
def toIntCompare (s : String) : Option ℤ :=
  match toFloatCompare s with
  | some (.finite q) => some (truncToward0 q)
  | _ => none

/-- Function `procisocity_insights._to_int`: `int(float(s))` after the same strip and
sentinel check; `int` of an infinity or NaN raises and is caught → `none`. -/
def toIntInsights (s : String) : Option ℤ :=
  let t := pyStrip s.toList
  if isAbsentToken t then none
  else
    match pyFloatOfChars t with
    | some (.finite q) => some (truncToward0 q)
    | _ => none

/-! ### CSV rows -/

/-- A CSV row as produced by `csv.DictReader`: an association list from
column name to cell string (keys are unique, so first match wins). -/
abbrev Row := List (String × String)

/-- Python `row.get(key, "")`. -/
def rget (r : Row) (k : String) : String :=
  ((r.find? (fun p => p.1 == k)).map Prod.snd).getD ""

/-- Python `key in row` for a `DictReader` row. -/
def rowHasKey (r : Row) (k : String) : Bool :=
  r.any (fun p => p.1 == k)

/-! ### Key-column inference for tile tables -/

/-- Python `"".join(ch for ch in s.lower() if ch.isalnum())`, the `norm`
helper inside `procisocity_insights._choose_column`. -/
def pyNorm (s : String) : List Char :=
  (lowerChars s.toList).filter Char.isAlphanum

/-- Lower-cased form of a column name, the first-stage key of
`_choose_column`. -/
def lowerKey (s : String) : List Char := lowerChars s.toList

/-- The value `d[key]` of the Python dict comprehension
`{f(h): h for h in headers}`: the last header whose image under `f` is
`key` (later entries overwrite earlier ones). -/
def lastWithKey (headers : List String) (f : String → List Char) (key : List Char) :
    Option String :=
  (headers.filter (fun h => f h == key)).getLast?

/-- Function `procisocity_insights._choose_column`: first candidate whose lower-cased
form appears among the lower-cased headers, resolved through the
last-wins header dict; failing that, the same with alphanumeric
normalization. -/
def chooseColumn (headers : List String) (cands : List String) : Option String :=
  match cands.find? (fun c => headers.any (fun h => lowerKey h == lowerKey c)) with
  | some c => lastWithKey headers lowerKey (lowerKey c)
  | none =>
    match cands.find? (fun c => headers.any (fun h => pyNorm h == pyNorm c)) with
    | some c => lastWithKey headers pyNorm (pyNorm c)
    | none => none

/-- The x-role candidate list of `load_tile_metrics_csv`. -/
def xCandidates : List String := ["x", "tile_x", "ix", "col"]

/-- The y-role candidate list of `load_tile_metrics_csv`. -/
def yCandidates : List String := ["y", "tile_y", "iy", "row"]

/-- Key-column inference of `procisocity_insights.load_tile_metrics_csv`:
candidate match for both roles; if either role fails, *both* keys fall back
to the first two columns whose value in the first data row parses as an
integer (via `_to_int`), and inference gives up if there are fewer than
two such columns or no data row. -/
def insightsTileKeyCols (headers : List String) (rows : List Row) :
    Option (String × String) :=
  match chooseColumn headers xCandidates, chooseColumn headers yCandidates with
  | some xc, some yc => some (xc, yc)
  | _, _ =>
    match rows with
    | [] => none
    | first :: _ =>
      match headers.filter (fun h => (toIntInsights (rget first h)).isSome) with
      | h1 :: h2 :: _ => some (h1, h2)
      | _ => none

/-- Function `procisocity_compare._infer_tile_key_cols`: the first candidate from
`x`/`tile_x`/`tx` (resp. `y`/`tile_y`/`ty`) that is literally
(case-sensitively) present in the header, independently per role; there is
no fallback. -/
def inferTileKeyCols (header : List String) : Option String × Option String :=
  (["x", "tile_x", "tx"].find? (fun c => header.contains c),
   ["y", "tile_y", "ty"].find? (fun c => header.contains c))

/-- The key-inference procedure exactly as the specification words it for
BOTH tools: exact lower-cased matches against `x`/`tile_x`/`ix`/`col` and
`y`/`tile_y`/`iy`/`row`, and, if no named match exists, the first two
columns whose value in a sample row parses as an integer. -/
def claimTileKeyCols (headers : List String) (sample : Row) : Option (String × String) :=
  let findLower := fun cands : List String =>
    cands.findSome? (fun c => headers.find? (fun h => lowerKey h == lowerKey c))
  match findLower xCandidates, findLower yCandidates with
  | some xc, some yc => some (xc, yc)
  | _, _ =>
    match headers.filter (fun h => (toIntInsights (rget sample h)).isSome) with
    | h1 :: h2 :: _ => some (h1, h2)
    | _ => none

/-- Spec-style restatement of the comparison tool's per-role inference:
walk the candidate list and return the first candidate that is a member of
the header. -/
def firstPresent (header : List String) : List String → Option String
  | [] => none
  | c :: cs => if c ∈ header then some c else firstPresent header cs

/-- Spec-style restatement of one matching stage of `_choose_column`: walk
the candidate list and return the last header whose image under `f` agrees
with the candidate's. -/
def stageMatch (headers : List String) (f : String → List Char) :
    List String → Option String
  | [] => none
  | c :: cs =>
    match (headers.filter (fun h => f h == f c)).getLast? with
    | some h => some h
    | none => stageMatch headers f cs

/-- Spec-style restatement of the first integer-parsing column of a row. -/
def firstIntCol (row : Row) : List String → Option String
  | [] => none
  | h :: hs => if (toIntInsights (rget row h)).isSome then some h else firstIntCol row hs

/-- Spec-style restatement of the first two integer-parsing columns. -/
def firstTwoIntCols (row : Row) : List String → Option (String × String)
  | [] => none
  | h :: hs =>
    if (toIntInsights (rget row h)).isSome then
      match firstIntCol row hs with
      | some h2 => some (h, h2)
      | none => none
    else firstTwoIntCols row hs

/-- Spec-style two-stage matching for one role: exact lower-cased
candidate matching, then alphanumeric-normalized matching. -/
def twoStageMatch (headers : List String) (cands : List String) : Option String :=
  match stageMatch headers lowerKey cands with
  | some h => some h
  | none => stageMatch headers pyNorm cands

/-- Spec-style restatement (amended) of the insights tool's key inference:
two-stage case-insensitive candidate matching per role (exact lower-cased,
then alphanumeric-normalized, later duplicate headers winning), with
fallback of both roles to the first two integer-parsing columns of the
first data row. -/
def insightsKeySpec (headers : List String) (rows : List Row) : Option (String × String) :=
  match twoStageMatch headers xCandidates, twoStageMatch headers yCandidates with
  | some xc, some yc => some (xc, yc)
  | _, _ =>
    match rows with
    | [] => none
    | first :: _ => firstTwoIntCols first headers

/-! ### Gini coefficient -/

/-- The `clamp` helper (identical in both tools). -/
def clamp (x lo hi : ℚ) : ℚ :=
  if x < lo then lo else if x > hi then hi else x

/-- The `cum` loop of `gini`: `Σ i·x_i` with 1-based rank `i` starting at
the given index. -/
def weightedCum : ℕ → List ℚ → ℚ
  | _, [] => 0
  | i, x :: rest => (i : ℚ) * x + weightedCum (i + 1) rest

/-- Function `gini` (the two tools' versions are extensionally identical): filter to
finite values (`none` when nothing remains), shift by the minimum when
negatives are present, sort ascending, return 0 when the total is ≤ 0 and
otherwise the closed form `(2·Σ i·x_i)/(n·Σx) − (n+1)/n` clamped to [0,1]. -/
def gini (values : List (Option ℚ)) : Option ℚ :=
  match values.filterMap id with
  | [] => none
  | x :: rest =>
    let mn := rest.foldl min x
    let xs := if mn < 0 then (x :: rest).map (fun v => v - mn) else x :: rest
    let sorted := List.insertionSort (· ≤ ·) xs
    let n := sorted.length
    let total := sorted.sum
    if total ≤ 0 then some 0
    else some (clamp ((2 * weightedCum 1 sorted) / ((n : ℚ) * total) - ((n : ℚ) + 1) / n) 0 1)

/-! ### Percentiles -/

/-- The `pct` helper of `compute_stats` (identical in both tools), applied
to the ascending-sorted list of finite values `xs`:
`k = (n-1)*p`, `i = floor(k)`, `j = min(i+1, n-1)`, `t = k-i`,
result `xs[i]*(1-t) + xs[j]*t`; for `n = 1` the single value. -/
def pct (xs : List ℚ) (p : ℚ) : ℚ :=
  let n := xs.length
  if n = 1 then xs.getD 0 0
  else
    let k : ℚ := ((n : ℚ) - 1) * p
    let i : ℤ := ⌊k⌋
    let j : ℤ := min (i + 1) ((n : ℤ) - 1)
    let t : ℚ := k - (i : ℚ)
    xs.getD i.toNat 0 * (1 - t) + xs.getD j.toNat 0 * t

/-- The textbook median of an ascending-sorted list: the middle element for
odd length, the average of the two middle elements for even length. -/
def listMedian (xs : List ℚ) : ℚ :=
  if xs.length % 2 = 1 then xs.getD (xs.length / 2) 0
  else (xs.getD (xs.length / 2 - 1) 0 + xs.getD (xs.length / 2) 0) / 2

/-! ### Moran's I -/

/-- The finite cells of a grid/series, in order (`values[i]` for `i` in
`idxs`). -/
def finiteVals (values : List (Option ℚ)) : List ℚ := values.filterMap id

/-- Python `statistics.fmean` over the finite cells. -/
def moranMean (values : List (Option ℚ)) : ℚ :=
  (finiteVals values).sum / ((finiteVals values).length : ℚ)

/-- The `denom` loop of `morans_i_grid`: `Σ (v-mean)·(v-mean)` over finite
cells. -/
def moranDenom (values : List (Option ℚ)) : ℚ :=
  ((finiteVals values).map
    (fun v => (v - moranMean values) * (v - moranMean values))).sum

/-- The cell value `values[y*w + x]` of a row-major grid. -/
def cellAt (values : List (Option ℚ)) (w x y : ℕ) : Option ℚ :=
  values.getD (y * w + x) none

/-- One pair's contribution to `num`: `2·(v_a-mean)·(v_b-mean)` when both
cells are finite, 0 otherwise. -/
def pairTerm (a b : Option ℚ) (mean : ℚ) : ℚ :=
  match a, b with
  | some v, some v' => 2 * (v - mean) * (v' - mean)
  | _, _ => 0

/-- One pair's contribution to `s0`: 2 when both cells are finite. -/
def pairWeight (a b : Option ℚ) : ℚ :=
  match a, b with
  | some _, some _ => 2
  | _, _ => 0

/-- The right neighbor used by the `morans_i_grid` loop (guarded by
`x + 1 < w`). -/
def rightCell (values : List (Option ℚ)) (w x y : ℕ) : Option ℚ :=
  if x + 1 < w then cellAt values w (x + 1) y else none

/-- The down neighbor used by the `morans_i_grid` loop (guarded by
`y + 1 < h`). -/
def downCell (values : List (Option ℚ)) (w h x y : ℕ) : Option ℚ :=
  if y + 1 < h then cellAt values w x (y + 1) else none

/-- The `num` accumulator of `morans_i_grid`: traverse the grid and charge
each right and down edge with both cells finite. -/
def moranNum (values : List (Option ℚ)) (w h : ℕ) (mean : ℚ) : ℚ :=
  ∑ y ∈ Finset.range h, ∑ x ∈ Finset.range w,
    (pairTerm (cellAt values w x y) (rightCell values w x y) mean
      + pairTerm (cellAt values w x y) (downCell values w h x y) mean)

/-- The `s0` accumulator of `morans_i_grid`. -/
def moranS0 (values : List (Option ℚ)) (w h : ℕ) : ℚ :=
  ∑ y ∈ Finset.range h, ∑ x ∈ Finset.range w,
    (pairWeight (cellAt values w x y) (rightCell values w x y)
      + pairWeight (cellAt values w x y) (downCell values w h x y))

/-- Function `procisocity_insights.morans_i_grid` on a row-major grid of optional
values. -/
def morans_i_grid (values : List (Option ℚ)) (w h : ℕ) : Option ℚ :=
  if w = 0 ∨ h = 0 then none
  else
    let n := (finiteVals values).length
    if n < 3 then none
    else
      let mean := moranMean values
      let denom := moranDenom values
      if denom ≤ 0 then none
      else
        let num := moranNum values w h mean
        let s0 := moranS0 values w h
        if s0 ≤ 0 then none
        else some (((n : ℚ) / s0) * (num / denom))

/-- Four-neighbor adjacency of two grid coordinates `(x, y)`. -/
def adjacentPair (p q : ℕ × ℕ) : Prop :=
  (p.1 = q.1 ∧ (p.2 + 1 = q.2 ∨ q.2 + 1 = p.2)) ∨
    (p.2 = q.2 ∧ (p.1 + 1 = q.1 ∨ q.1 + 1 = p.1))

instance (p q : ℕ × ℕ) : Decidable (adjacentPair p q) := by
  unfold adjacentPair; exact inferInstance

/-- Row-major (reading) order on grid coordinates, used only to pick one
representative of each unordered pair. -/
def rowMajorBefore (p q : ℕ × ℕ) : Prop :=
  p.2 < q.2 ∨ (p.2 = q.2 ∧ p.1 < q.1)

instance (p q : ℕ × ℕ) : Decidable (rowMajorBefore p q) := by
  unfold rowMajorBefore; exact inferInstance

/-- The unordered 4-neighbor adjacent pairs of a `w × h` grid, each
represented once (row-major smaller member first). -/
def gridAdjPairs (w h : ℕ) : Finset ((ℕ × ℕ) × (ℕ × ℕ)) :=
  ((Finset.range w ×ˢ Finset.range h) ×ˢ (Finset.range w ×ˢ Finset.range h)).filter
    (fun pq => adjacentPair pq.1 pq.2 ∧ rowMajorBefore pq.1 pq.2)

/-- Specification-side `num`: for each unordered adjacent pair of finite
cells, `2·(v_a-mean)·(v_b-mean)`. -/
def specNum (values : List (Option ℚ)) (w h : ℕ) (mean : ℚ) : ℚ :=
  ∑ pq ∈ gridAdjPairs w h,
    pairTerm (cellAt values w pq.1.1 pq.1.2) (cellAt values w pq.2.1 pq.2.2) mean

/-- Specification-side `s0`: 2 for each unordered adjacent pair of finite
cells. -/
def specS0 (values : List (Option ℚ)) (w h : ℕ) : ℚ :=
  ∑ pq ∈ gridAdjPairs w h,
    pairWeight (cellAt values w pq.1.1 pq.1.2) (cellAt values w pq.2.1 pq.2.2)

/-! ### Pearson correlation -/

/-- The `pairs` loop of `pearson_corr`: index-aligned positions where both
entries are present (absent entries model Python `None` and non-finite
floats alike). -/
def validPairs (a b : List (Option ℝ)) : List (ℝ × ℝ) :=
  (a.zip b).filterMap (fun xy =>
    match xy with
    | (some x, some y) => some (x, y)
    | _ => none)

/-- Python `statistics.fmean` over the reals. -/
noncomputable def fmeanR (xs : List ℝ) : ℝ := xs.sum / (xs.length : ℝ)

/-- Centered sum of squares `Σ (x - mean)²` of a series, the `sx2`/`sy2`
of `pearson_corr`. -/
noncomputable def centeredSumSq (xs : List ℝ) : ℝ :=
  (xs.map (fun x => (x - fmeanR xs) ^ 2)).sum

/-- Function `procisocity_insights.pearson_corr`: `None` for fewer than 3 valid
pairs or zero variance, else covariance over `sqrt(sx2·sy2)`. -/
noncomputable def pearson_corr (a b : List (Option ℝ)) : Option ℝ :=
  let pairs := validPairs a b
  if pairs.length < 3 then none
  else
    let xs := pairs.map Prod.fst
    let ys := pairs.map Prod.snd
    if centeredSumSq xs ≤ 0 ∨ centeredSumSq ys ≤ 0 then none
    else
      some ((pairs.map (fun xy => (xy.1 - fmeanR xs) * (xy.2 - fmeanR ys))).sum /
        Real.sqrt (centeredSumSq xs * centeredSumSq ys))

/-! ### Tick comparison -/

/-- The integer day keys of a tick table: the key set of the `day → row`
map built by `compare_ticks` (later duplicates only overwrite the row). -/
def tickDayKeys (rows : List Row) : List ℤ :=
  rows.filterMap (fun r => toIntCompare (rget r "day"))

/-- The Finset of day keys of a tick table. -/
def daySet (rows : List Row) : Finset ℤ := (tickDayKeys rows).toFinset

/-- The `(common_days, day_min, day_max)` triple computed by
`compare_ticks`: both tables must be non-empty and expose a `day` column in
their first row; the compared days are the ascending-sorted intersection of
the two key sets, and an empty intersection leaves the zero/absent
defaults. -/
def compareTicksDays (rowsA rowsB : List Row) : ℕ × Option ℤ × Option ℤ :=
  match rowsA, rowsB with
  | [], _ => (0, none, none)
  | _, [] => (0, none, none)
  | ra :: _, rb :: _ =>
    if rowHasKey ra "day" ∧ rowHasKey rb "day" then
      let days := List.insertionSort (· ≤ ·)
        ((tickDayKeys rowsA).filter (fun d => (tickDayKeys rowsB).contains d)).dedup
      (days.length, days.head?, days.getLast?)
    else (0, none, none)

/-! ### Per-tile deltas -/

/-- The `best` list of `compare_tile_metrics` for one focus metric:
`(abs delta, x, y, value_a, value_b)` for every common key whose value on
both sides parses to a finite float. -/
def tileDeltaEntries (keys : List (ℤ × ℤ)) (idxA idxB : ℤ × ℤ → Row) (metric : String) :
    List (ℚ × ℤ × ℤ × ℚ × ℚ) :=
  keys.filterMap (fun k =>
    match toFloatCompareQ (rget (idxA k) metric), toFloatCompareQ (rget (idxB k) metric) with
    | some va, some vb => some (|vb - va|, k.1, k.2, va, vb)
    | _, _ => none)

/-- Descending order on the absolute delta (the sort key of
`best.sort(key=lambda t: t[0], reverse=True)`). -/
def descAbsDelta (s t : ℚ × ℤ × ℤ × ℚ × ℚ) : Prop := t.1 ≤ s.1

instance : DecidableRel descAbsDelta := fun s t => by
  unfold descAbsDelta; exact inferInstance

instance : IsTotal (ℚ × ℤ × ℤ × ℚ × ℚ) descAbsDelta :=
  ⟨fun s t => le_total t.1 s.1⟩

instance : IsTrans (ℚ × ℤ × ℤ × ℚ × ℚ) descAbsDelta :=
  ⟨fun _ _ _ h h' => le_trans h' h⟩

instance : IsRefl (ℚ × ℤ × ℤ × ℚ × ℚ) descAbsDelta :=
  ⟨fun _ => le_refl _⟩

/-- The ranked, truncated per-tile delta list:
`best.sort(key=lambda t: t[0], reverse=True)` then `best[: max(0, top)]`. -/
def tileDeltaTop (keys : List (ℤ × ℤ)) (idxA idxB : ℤ × ℤ → Row) (metric : String)
    (top : ℤ) : List (ℚ × ℤ × ℤ × ℚ × ℚ) :=
  ((tileDeltaEntries keys idxA idxB metric).insertionSort descAbsDelta).take
    (max 0 top).toNat

/-! ### Summary comparison -/

/-- A JSON scalar as found in `summary.json` values. -/
inductive JsonVal where
  | null
  | num (q : ℚ)
  | str (s : String)
  | boolean (b : Bool)
deriving DecidableEq

/-- A JSON object (the Python dict produced by `json.load`). -/
abbrev JsonObj := List (String × JsonVal)

/-- Python `d.get(k)`: `None` both for a missing key and for an explicit
JSON `null` value. -/
def jget (d : JsonObj) (k : String) : Option JsonVal :=
  match d.lookup k with
  | some JsonVal.null => none
  | some v => some v
  | none => none

/-- The fields of `compare_summary`'s output that the claims are about. -/
structure SummaryCmp where
  present_a : Bool
  present_b : Bool
  same_seed : Option Bool
  same_size : Option Bool
  seed_a : Option JsonVal
  seed_b : Option JsonVal
  width_a : Option JsonVal
  width_b : Option JsonVal
  height_a : Option JsonVal
  height_b : Option JsonVal
deriving DecidableEq

/-- Function `procisocity_compare.compare_summary`.  Python truthiness: `if a:` and
`if a and b:` are false both for `None` and for an *empty* dict, so an
empty summary record populates no field and leaves both equality flags
absent. -/
def compare_summary (a b : Option JsonObj) : SummaryCmp :=
  let fieldOf := fun (o : Option JsonObj) (k : String) =>
    match o with
    | some d => if d = [] then none else jget d k
    | none => none
  let seedA := fieldOf a "seed"
  let seedB := fieldOf b "seed"
  let widthA := fieldOf a "width"
  let widthB := fieldOf b "width"
  let heightA := fieldOf a "height"
  let heightB := fieldOf b "height"
  let flags : Option Bool × Option Bool :=
    match a, b with
    | some da, some db =>
      if da = [] ∨ db = [] then (none, none)
      else
        (some (decide (seedA = seedB) && seedA.isSome),
          some (decide (widthA = widthB) && decide (heightA = heightB) && widthA.isSome))
    | _, _ => (none, none)
  { present_a := a.isSome
    present_b := b.isSome
    same_seed := flags.1
    same_size := flags.2
    seed_a := seedA
    seed_b := seedB
    width_a := widthA
    width_b := widthB
    height_a := heightA
    height_b := heightB }

/-! ## Theorems -/

/-- Sanity check tying the overflow literal to its closed form. -/
theorem overflowBound_eq : overflowBound = 2 ^ 1024 - 2 ^ 970 := by
  norm_num [overflowBound]

/-- Helper: compare's `_to_float` returns only finite values. -/
theorem toFloatCompare_all_finite (s : String) :
    (toFloatCompare s).all PyFloat.isFinite = true := by
  cases habs : isAbsentToken (pyStrip s.data) with
  | false =>
    cases hp : pyFloatOfChars (pyStrip s.data) with
    | none => simp [toFloatCompare, habs, hp]
    | some v => cases v <;> simp [toFloatCompare, PyFloat.isFinite, habs, hp]
  | true => simp [toFloatCompare, habs]

/-- Helper: compare's `_to_float` is the finiteness-filtered insights
`_to_float`. -/
theorem toFloatCompare_eq_filtered (s : String) :
    toFloatCompare s =
      (toFloatInsights s).bind (fun v => if v.isFinite then some v else none) := by
  cases habs : isAbsentToken (pyStrip s.data) with
  | false =>
    cases hp : pyFloatOfChars (pyStrip s.data) with
    | none => simp [toFloatCompare, toFloatInsights, habs, hp]
    | some v => cases v <;> simp [toFloatCompare, toFloatInsights, PyFloat.isFinite, habs, hp]
  | true => simp [toFloatCompare, toFloatInsights, habs]

/-- Helper: a sentinel/empty stripped input is absent for both tools. -/
theorem toFloat_absent_token (s : String)
    (habs : isAbsentToken (pyStrip s.toList) = true) :
    toFloatCompare s = none ∧ toFloatInsights s = none := by
  rw [show s.toList = s.data from rfl] at habs
  exact ⟨by simp [toFloatCompare, habs], by simp [toFloatInsights, habs]⟩

/-- Helper: an unparseable input is absent for both tools. -/
theorem toFloat_parse_failure (s : String)
    (hparse : pyFloatOfChars (pyStrip s.toList) = none) :
    toFloatCompare s = none ∧ toFloatInsights s = none := by
  rw [show s.toList = s.data from rfl] at hparse
  cases habs : isAbsentToken (pyStrip s.data) with
  | false =>
    exact ⟨by simp [toFloatCompare, habs, hparse], by simp [toFloatInsights, habs, hparse]⟩
  | true =>
    exact ⟨by simp [toFloatCompare, habs], by simp [toFloatInsights, habs]⟩

/-- Helper: a value produced by compare's `_to_float` is a finite rational. -/
theorem toFloatCompare_some_finite {s : String} {v : PyFloat}
    (h : toFloatCompare s = some v) : ∃ q : ℚ, v = .finite q := by
  have hall := toFloatCompare_all_finite s
  rw [h] at hall
  cases v with
  | finite q => exact ⟨q, rfl⟩
  | inf => simp [PyFloat.isFinite] at hall
  | neginf => simp [PyFloat.isFinite] at hall
  | nan => simp [PyFloat.isFinite] at hall

/-- Helper: `truncToward0` is floor on nonnegatives and ceiling on
negatives, i.e. truncation toward zero. -/
theorem truncToward0_eq (q : ℚ) :
    truncToward0 q = if 0 ≤ q then ⌊q⌋ else ⌈q⌉ := by
  unfold truncToward0
  rcases le_or_lt 0 q with hq | hq
  · rw [if_pos hq, Rat.floor_def]
    exact Int.tdiv_eq_ediv (Rat.num_nonneg.2 hq) (Int.natCast_nonneg _)
  · rw [if_neg (not_le.2 hq)]
    have hnum : (0 : ℤ) ≤ -q.num := by
      have h2 : ¬ (0 : ℤ) ≤ q.num := by
        rw [Rat.num_nonneg]; exact not_le.2 hq
      omega
    calc q.num.tdiv q.den = -((-q.num).tdiv q.den) := by rw [Int.neg_tdiv, neg_neg]
      _ = -(-q.num / (q.den : ℤ)) := by rw [Int.tdiv_eq_ediv hnum (Int.natCast_nonneg _)]
      _ = -⌊-q⌋ := by rw [Rat.floor_def, Rat.neg_num, Rat.neg_den]
      _ = ⌈q⌉ := by rw [Int.floor_neg, neg_neg]

/-! ### C2 — tolerant float parsing -/

/-- Claim C2, counterexample.  The claim says the `_to_float` helper of *each*
tool maps every string parsing to a non-finite float to absent; the
insights tool's `_to_float` has no finiteness guard and returns the
infinity produced by `float("inf")` (the compare tool does reject it). -/
theorem C2_counterexample :
    toFloatInsights "inf" = some PyFloat.inf ∧
      PyFloat.isFinite PyFloat.inf = false ∧
      toFloatCompare "inf" = none :=
  ⟨by decide, rfl, by decide⟩

/-- Claim C2, amended.  Compare's `_to_float` only ever returns finite values and
equals the finiteness-filtered insights `_to_float`; both treat the
whitespace-trimmed empty string and the case-insensitive sentinels
`nan`/`null`/`none` as absent, and both return absent on unparseable
strings (neither raises — totality of the definitions); but the insights
tool's `_to_float` passes non-finite parse results through unchanged. -/
theorem C2_to_float_amended :
    (∀ s : String, (toFloatCompare s).all PyFloat.isFinite = true) ∧
    (∀ s : String, toFloatCompare s =
      (toFloatInsights s).bind (fun v => if v.isFinite then some v else none)) ∧
    (∀ s : String, isAbsentToken (pyStrip s.toList) = true →
      toFloatCompare s = none ∧ toFloatInsights s = none) ∧
    (∀ s : String, pyFloatOfChars (pyStrip s.toList) = none →
      toFloatCompare s = none ∧ toFloatInsights s = none) :=
  ⟨toFloatCompare_all_finite, toFloatCompare_eq_filtered,
    toFloat_absent_token, toFloat_parse_failure⟩

/-- Claim C2, witness for the amended theorem at concrete inputs. -/
theorem C2_witness :
    isAbsentToken (pyStrip " NaN ".toList) = true ∧
      toFloatCompare " NaN " = none ∧ toFloatInsights " NaN " = none :=
  ⟨by decide, (C2_to_float_amended.2.2.1 " NaN " (by decide)).1,
    (C2_to_float_amended.2.2.1 " NaN " (by decide)).2⟩

/-! ### C3 — integer parsing -/

/-- Claim C3, counterexample.  The claim says `parse_int` is `floor(parse_float)`
so that `"-2.5"` yields `-3`; Python `int()` truncates toward zero, and
both tools return `-2`. -/
theorem C3_counterexample :
    toFloatCompareQ "-2.5" = some (-(5 / 2)) ∧
      toIntCompare "-2.5" = some (-2) ∧
      toIntInsights "-2.5" = some (-2) ∧
      ⌊(-(5 / 2) : ℚ)⌋ = -3 := by
  refine ⟨by decide, by decide, by decide, ?_⟩
  rw [Int.floor_eq_iff]
  norm_num

/-- Claim C3, amended.  For the compare tool `_to_int` is absent exactly when
`_to_float` is absent and otherwise truncates the float toward zero
(`-2.5` gives `-2`, not `floor = -3`); for the insights tool `_to_int` is
additionally absent when the parsed float is non-finite (where its
`_to_float` is present), and otherwise also truncates toward zero. -/
theorem C3_to_int_amended :
    (∀ s : String, toIntCompare s = (toFloatCompareQ s).map truncToward0) ∧
    (∀ s : String, (toIntCompare s).isSome = (toFloatCompare s).isSome) ∧
    (∀ s : String, toIntInsights s =
      (toFloatInsights s).bind (fun v =>
        match v with
        | .finite q => some (truncToward0 q)
        | _ => none)) ∧
    (∀ q : ℚ, truncToward0 q = if 0 ≤ q then ⌊q⌋ else ⌈q⌉) := by
  refine ⟨fun s => ?_, fun s => ?_, fun s => ?_, truncToward0_eq⟩
  · unfold toIntCompare toFloatCompareQ
    cases h : toFloatCompare s with
    | none => rfl
    | some v => cases v <;> rfl
  · unfold toIntCompare
    cases h : toFloatCompare s with
    | none => rfl
    | some v =>
      obtain ⟨q, rfl⟩ := toFloatCompare_some_finite h
      rfl
  · cases habs : isAbsentToken (pyStrip s.data) with
    | false =>
      cases hp : pyFloatOfChars (pyStrip s.data) with
      | none => simp [toIntInsights, toFloatInsights, habs, hp]
      | some v => cases v <;> simp [toIntInsights, toFloatInsights, habs, hp]
    | true => simp [toIntInsights, toFloatInsights, habs]

/-- Claim C3, witness for the amended theorem at a concrete input. -/
theorem C3_witness :
    toIntCompare "7.9" = (toFloatCompareQ "7.9").map truncToward0 ∧
      truncToward0 (-(5 / 2)) = if 0 ≤ (-(5 / 2) : ℚ) then ⌊(-(5 / 2) : ℚ)⌋ else ⌈(-(5 / 2) : ℚ)⌉ :=
  ⟨C3_to_int_amended.1 "7.9", C3_to_int_amended.2.2.2 (-(5 / 2))⟩

/-! ### C10 — summary comparison flags -/

/-- Claim C10, counterexample.  Two present summaries that both lack a seed do
not always give `same_seed = False`: an empty summary record is falsy in
Python, so `compare_summary` skips the `if a and b:` block and leaves both
flags absent. -/
theorem C10_counterexample :
    (compare_summary (some []) (some [])).present_a = true ∧
      (compare_summary (some []) (some [])).present_b = true ∧
      jget [] "seed" = none ∧
      (compare_summary (some []) (some [])).same_seed = none :=
  ⟨rfl, rfl, rfl, rfl⟩

/-- Claim C10, amended.  When both summaries are present and *non-empty*,
`same_size` is true iff the widths agree, the heights agree, and the width
is non-absent (so equal non-absent widths with both heights absent still
give true), and `same_seed` is true iff the seeds agree and are non-absent
(both seeds missing gives false, not absent); when either summary is an
empty record, Python truthiness skips the comparison and both flags stay
absent. -/
theorem C10_summary_flags_amended :
    (∀ da db : JsonObj, da ≠ [] → db ≠ [] →
      (compare_summary (some da) (some db)).same_seed =
        some (decide (jget da "seed" = jget db "seed") && (jget da "seed").isSome) ∧
      (compare_summary (some da) (some db)).same_size =
        some (decide (jget da "width" = jget db "width") &&
          decide (jget da "height" = jget db "height") && (jget da "width").isSome)) ∧
    (∀ da db : JsonObj, da = [] ∨ db = [] →
      (compare_summary (some da) (some db)).same_seed = none ∧
      (compare_summary (some da) (some db)).same_size = none) := by
  constructor
  · intro da db hna hnb
    constructor <;> simp [compare_summary, hna, hnb]
  · intro da db hor
    rcases hor with h | h <;> constructor <;> simp [compare_summary, h]

/-- Claim C10, witness: equal non-absent widths with both heights absent give
`same_size = true`, and two seedless non-empty summaries give
`same_seed = false`. -/
theorem C10_witness :
    ([("width", JsonVal.num 10)] : JsonObj) ≠ [] ∧
      (compare_summary (some [("width", JsonVal.num 10)])
          (some [("width", JsonVal.num 10)])).same_seed =
        some (decide (jget [("width", JsonVal.num 10)] "seed" =
            jget [("width", JsonVal.num 10)] "seed") &&
          (jget [("width", JsonVal.num 10)] "seed").isSome) ∧
      (compare_summary (some [("width", JsonVal.num 10)])
          (some [("width", JsonVal.num 10)])).same_size =
        some (decide (jget [("width", JsonVal.num 10)] "width" =
            jget [("width", JsonVal.num 10)] "width") &&
          decide (jget [("width", JsonVal.num 10)] "height" =
            jget [("width", JsonVal.num 10)] "height") &&
          (jget [("width", JsonVal.num 10)] "width").isSome) :=
  ⟨by decide,
    (C10_summary_flags_amended.1 _ _ (by decide) (by decide)).1,
    (C10_summary_flags_amended.1 _ _ (by decide) (by decide)).2⟩

/-! ### C1 — tile key-column inference -/

/-- Helper: `List.find?` over a membership test is the spec-style
`firstPresent`. -/
theorem find_contains_eq_firstPresent (header : List String) :
    ∀ cands : List String,
      cands.find? (fun c => header.contains c) = firstPresent header cands
  | [] => rfl
  | c :: cs => by
    rw [List.find?_cons]
    simp only [firstPresent]
    by_cases h : c ∈ header
    · have hb : header.contains c = true := by simpa using h
      rw [hb, if_pos h]
    · have hb : header.contains c = false := by simpa using h
      rw [hb, if_neg h]
      exact find_contains_eq_firstPresent header cs

/-- Helper: a list's `any` is true iff its filtration is non-empty. -/
theorem any_iff_filter_ne_nil (l : List String) (p : String → Bool) :
    l.any p = true ↔ l.filter p ≠ [] := by
  rw [List.any_eq_true, ne_eq, List.filter_eq_nil_iff]
  push_neg
  simp

/-- Helper: one matching stage of `_choose_column` (find a candidate whose
image matches some header, then look the image up in the last-wins dict)
is the spec-style `stageMatch`. -/
theorem choose_stage_eq_stageMatch (headers : List String) (f : String → List Char) :
    ∀ cands : List String,
      (match cands.find? (fun c => headers.any (fun h => f h == f c)) with
        | some c => lastWithKey headers f (f c)
        | none => none) = stageMatch headers f cands
  | [] => rfl
  | c :: cs => by
    cases h : headers.any (fun h => f h == f c) with
    | true =>
      have hne : headers.filter (fun h => f h == f c) ≠ [] :=
        (any_iff_filter_ne_nil headers _).mp h
      cases hl : (headers.filter (fun h => f h == f c)).getLast? with
      | none => exact absurd (List.getLast?_eq_none_iff.mp hl) hne
      | some y => simp [List.find?_cons, h, stageMatch, lastWithKey, hl]
    | false =>
      have hnil : headers.filter (fun h => f h == f c) = [] := by
        by_contra hne
        have hcontra := (any_iff_filter_ne_nil headers _).mpr hne
        rw [h] at hcontra
        exact Bool.noConfusion hcontra
      simp [List.find?_cons, h, stageMatch, hnil,
        choose_stage_eq_stageMatch headers f cs]

/-- Helper: `_choose_column` is the two-stage spec-style matcher. -/
theorem chooseColumn_eq_stages (headers cands : List String) :
    chooseColumn headers cands = twoStageMatch headers cands := by
  unfold chooseColumn twoStageMatch
  rw [← choose_stage_eq_stageMatch headers lowerKey cands,
    ← choose_stage_eq_stageMatch headers pyNorm cands]
  cases h1 : cands.find? (fun c => headers.any (fun h => lowerKey h == lowerKey c)) with
  | none => rfl
  | some c =>
    have hc : headers.any (fun h => lowerKey h == lowerKey c) = true :=
      (List.find?_eq_some.mp h1).1
    have hne : headers.filter (fun h => lowerKey h == lowerKey c) ≠ [] :=
      (any_iff_filter_ne_nil headers _).mp hc
    cases hl : (headers.filter (fun h => lowerKey h == lowerKey c)).getLast? with
    | none => exact absurd (List.getLast?_eq_none_iff.mp hl) hne
    | some y => simp [lastWithKey, hl]

/-- Helper: the first integer-parsing column is the head of the filtered
header list. -/
theorem filter_int_head_eq_firstIntCol (row : Row) :
    ∀ hs : List String,
      (hs.filter (fun h => (toIntInsights (rget row h)).isSome)).head? =
        firstIntCol row hs
  | [] => rfl
  | h :: hs => by
    by_cases hp : (toIntInsights (rget row h)).isSome = true
    · simp [List.filter_cons, hp, firstIntCol]
    · simp [List.filter_cons, hp, firstIntCol,
        filter_int_head_eq_firstIntCol row hs]

/-- Helper: taking the first two entries of the filtered header list is the
spec-style `firstTwoIntCols`. -/
theorem filter_int_two_eq_firstTwoIntCols (row : Row) :
    ∀ hs : List String,
      (match hs.filter (fun h => (toIntInsights (rget row h)).isSome) with
        | h1 :: h2 :: _ => some (h1, h2)
        | _ => none) = firstTwoIntCols row hs
  | [] => rfl
  | h :: hs => by
    by_cases hp : (toIntInsights (rget row h)).isSome = true
    · rw [List.filter_cons_of_pos (by simpa using hp)]
      simp only [firstTwoIntCols, if_pos hp, ← filter_int_head_eq_firstIntCol row hs]
      cases hf : hs.filter (fun h => (toIntInsights (rget row h)).isSome) with
      | nil => rfl
      | cons h2 t => rfl
    · rw [List.filter_cons_of_neg (by simpa using hp)]
      simp only [firstTwoIntCols, if_neg hp]
      exact filter_int_two_eq_firstTwoIntCols row hs

/-- Helper: the insights key inference agrees with its spec-style
restatement. -/
theorem insightsTileKeyCols_eq_spec (headers : List String) (rows : List Row) :
    insightsTileKeyCols headers rows = insightsKeySpec headers rows := by
  unfold insightsTileKeyCols insightsKeySpec
  rw [chooseColumn_eq_stages headers xCandidates, chooseColumn_eq_stages headers yCandidates]
  cases twoStageMatch headers xCandidates <;>
    cases twoStageMatch headers yCandidates <;>
    (try rfl) <;>
    (cases rows with
      | nil => rfl
      | cons first rest => exact filter_int_two_eq_firstTwoIntCols first headers)

/-- Claim C1, counterexample.  On a tile table with header `ix, iy` (and integer
values in the first row) the inference procedure described by the claim
succeeds with `("ix", "iy")`, but the comparison tool's
`_infer_tile_key_cols` — whose candidate lists are actually
`x`/`tile_x`/`tx` and `y`/`tile_y`/`ty`, matched case-sensitively and with
no fallback — finds neither key. -/
theorem C1_counterexample :
    claimTileKeyCols ["ix", "iy"] [("ix", "0"), ("iy", "0")] = some ("ix", "iy") ∧
      inferTileKeyCols ["ix", "iy"] = (none, none) := by
  exact ⟨by decide, by decide⟩

/-- Claim C1, amended.  The insights tool infers tile keys by two-stage
case-insensitive matching (exact lower-cased, then alphanumeric-normalized,
later duplicate headers winning) against `x`/`tile_x`/`ix`/`col` and
`y`/`tile_y`/`iy`/`row`, falling back — when either role has no named
match — to the first two columns whose value in the first data row parses
as an integer.  The comparison tool instead matches its candidates
`x`/`tile_x`/`tx` and `y`/`tile_y`/`ty` verbatim (case-sensitively) per
role, with no fallback. -/
theorem C1_tile_key_inference_amended :
    (∀ header : List String,
      inferTileKeyCols header =
        (firstPresent header ["x", "tile_x", "tx"],
          firstPresent header ["y", "tile_y", "ty"])) ∧
    (∀ (headers : List String) (rows : List Row),
      insightsTileKeyCols headers rows = insightsKeySpec headers rows) := by
  constructor
  · intro header
    unfold inferTileKeyCols
    rw [find_contains_eq_firstPresent header, find_contains_eq_firstPresent header]
  · exact insightsTileKeyCols_eq_spec

/-! ### C7 — per-tile delta ranking -/

/-- Claim C7.  The per-tile delta list for a focus metric is the descending sort
by absolute delta of the entries over the common keys where both values
are finite, truncated to the requested count: the result is sorted
descending by absolute delta, has exactly `min (max 0 top) (number of
comparable tiles)` entries, every entry is a genuine comparable-tile
entry, and any requested count ≤ 0 yields the empty list, never an error
(the function is total). -/
theorem C7_tile_delta_ranking (keys : List (ℤ × ℤ)) (idxA idxB : ℤ × ℤ → Row)
    (metric : String) (top : ℤ) :
    (tileDeltaTop keys idxA idxB metric top).Sorted descAbsDelta ∧
    (tileDeltaTop keys idxA idxB metric top).length =
      min (max 0 top).toNat (tileDeltaEntries keys idxA idxB metric).length ∧
    (∀ e ∈ tileDeltaTop keys idxA idxB metric top,
      e ∈ tileDeltaEntries keys idxA idxB metric) ∧
    (top ≤ 0 → tileDeltaTop keys idxA idxB metric top = []) := by
  refine ⟨?_, ?_, ?_, ?_⟩
  · exact List.Pairwise.sublist (List.take_sublist _ _)
      (List.sorted_insertionSort descAbsDelta _)
  · rw [tileDeltaTop, List.length_take,
      (List.perm_insertionSort descAbsDelta _).length_eq]
  · intro e he
    exact (List.mem_insertionSort _).mp (List.mem_of_mem_take he)
  · intro htop
    have h0 : (max 0 top).toNat = 0 := by omega
    rw [tileDeltaTop, h0, List.take_zero]

/-- Claim C7, witness: requesting zero tiles yields the empty list on a concrete
comparable input. -/
theorem C7_witness :
    ((0 : ℤ) ≤ 0) ∧
      tileDeltaTop [((0 : ℤ), (0 : ℤ))] (fun _ => [("lv", "1")])
        (fun _ => [("lv", "2")]) "lv" 0 = [] :=
  ⟨le_refl 0,
    (C7_tile_delta_ranking [((0 : ℤ), (0 : ℤ))] (fun _ => [("lv", "1")])
      (fun _ => [("lv", "2")]) "lv" 0).2.2.2 (le_refl 0)⟩

/-! ### C6 — tick day intersection -/

/-- Helper: every member of an ascending-sorted list is at most its last
element. -/
theorem sorted_le_getLast :
    ∀ (l : List ℤ), l.Sorted (· ≤ ·) → ∀ (hne : l ≠ []) (y : ℤ), y ∈ l → y ≤ l.getLast hne
  | [a], _, _, y, hy => by
    simp only [List.mem_singleton] at hy
    simp [hy, List.getLast]
  | a :: b :: t, hs, _, y, hy => by
    rw [List.getLast_cons (List.cons_ne_nil b t)]
    rcases List.mem_cons.mp hy with rfl | hy'
    · exact List.rel_of_sorted_cons hs _ (List.getLast_mem (List.cons_ne_nil b t))
    · exact sorted_le_getLast (b :: t) hs.of_cons (List.cons_ne_nil b t) y hy'

/-- Helper: an ascending-sorted duplicate-free list whose members are
exactly a Finset has the Finset's cardinality as its length, the Finset's
least element first and its greatest element last. -/
theorem sorted_nodup_list_spec (days : List ℤ) (S : Finset ℤ)
    (hsorted : days.Sorted (· ≤ ·)) (hnodup : days.Nodup)
    (hmem : ∀ d, d ∈ days ↔ d ∈ S) :
    days.length = S.card ∧
      (days.head?, days.getLast?) =
        (if h : S.Nonempty then (some (S.min' h), some (S.max' h))
          else (none, none)) := by
  have hTF : days.toFinset = S := Finset.ext fun d => by
    rw [List.mem_toFinset]; exact hmem d
  constructor
  · rw [← hTF, List.toFinset_card_of_nodup hnodup]
  · cases days with
    | nil =>
      have hS : S = ∅ := by
        rw [← hTF, List.toFinset_nil]
      rw [dif_neg (by simp [hS])]
      rfl
    | cons d t =>
      have hdS : d ∈ S := (hmem d).mp (List.mem_cons_self d t)
      have hne : S.Nonempty := ⟨d, hdS⟩
      rw [dif_pos hne]
      have hmin : S.min' hne = d :=
        le_antisymm (Finset.min'_le S d hdS)
          (Finset.le_min' S hne d fun y hy => by
            rcases List.mem_cons.mp ((hmem y).mpr hy) with rfl | hy'
            · exact le_refl y
            · exact List.rel_of_sorted_cons hsorted y hy')
      have hlast : (d :: t).getLast (List.cons_ne_nil d t) = S.max' hne :=
        le_antisymm
          (Finset.le_max' S _ ((hmem _).mp (List.getLast_mem _)))
          (Finset.max'_le S hne _ fun y hy =>
            sorted_le_getLast (d :: t) hsorted (List.cons_ne_nil d t) y ((hmem y).mpr hy))
      rw [List.getLast?_eq_getLast (d :: t) (List.cons_ne_nil d t), hlast, hmin]
      rfl

/-- Helper: membership in the sorted-dedup-filtered day list is membership
in the day-set intersection. -/
theorem mem_days_iff (rowsA rowsB : List Row) (d : ℤ) :
    (d ∈ List.insertionSort (· ≤ ·)
        ((tickDayKeys rowsA).filter (fun d => (tickDayKeys rowsB).contains d)).dedup) ↔
      d ∈ daySet rowsA ∩ daySet rowsB := by
  simp [daySet, List.mem_filter, Finset.mem_inter, List.mem_toFinset]

/-- Claim C6.  With both tick tables non-empty and exposing a `day` column in
their first rows, `compare_ticks` restricts to the intersection of the two
day-key sets, sorted ascending: `common_days` is the intersection's size
and `day_min`/`day_max` are its least and greatest elements (absent when
the intersection is empty); in particular days {1,2,3} against {2,3,4}
give 2 common days with range 2..3. -/
theorem C6_tick_day_intersection :
    (∀ (ra rb : Row) (la lb : List Row),
      rowHasKey ra "day" = true → rowHasKey rb "day" = true →
      compareTicksDays (ra :: la) (rb :: lb) =
        ((daySet (ra :: la) ∩ daySet (rb :: lb)).card,
          if h : (daySet (ra :: la) ∩ daySet (rb :: lb)).Nonempty then
            (some ((daySet (ra :: la) ∩ daySet (rb :: lb)).min' h),
              some ((daySet (ra :: la) ∩ daySet (rb :: lb)).max' h))
          else (none, none))) ∧
    compareTicksDays [[("day", "1")], [("day", "2")], [("day", "3")]]
        [[("day", "2")], [("day", "3")], [("day", "4")]] = (2, some 2, some 3) := by
  constructor
  · intro ra rb la lb hda hdb
    obtain ⟨hlen, hpair⟩ := sorted_nodup_list_spec
      (List.insertionSort (· ≤ ·)
        ((tickDayKeys (ra :: la)).filter
          (fun d => (tickDayKeys (rb :: lb)).contains d)).dedup)
      (daySet (ra :: la) ∩ daySet (rb :: lb))
      (List.sorted_insertionSort _ _)
      ((List.perm_insertionSort _ _).nodup_iff.mpr (List.nodup_dedup _))
      (mem_days_iff (ra :: la) (rb :: lb))
    simp only [compareTicksDays, if_pos (And.intro hda hdb)]
    exact Prod.ext hlen hpair
  · decide

/-- Claim C6, witness for the universally quantified part at the concrete
{1,2,3} / {2,3,4} tables. -/
theorem C6_witness :
    rowHasKey [("day", "1")] "day" = true ∧
      rowHasKey [("day", "2")] "day" = true ∧
      compareTicksDays [[("day", "1")], [("day", "2")], [("day", "3")]]
          [[("day", "2")], [("day", "3")], [("day", "4")]] =
        ((daySet [[("day", "1")], [("day", "2")], [("day", "3")]] ∩
            daySet [[("day", "2")], [("day", "3")], [("day", "4")]]).card,
          if h : (daySet [[("day", "1")], [("day", "2")], [("day", "3")]] ∩
              daySet [[("day", "2")], [("day", "3")], [("day", "4")]]).Nonempty then
            (some ((daySet [[("day", "1")], [("day", "2")], [("day", "3")]] ∩
                daySet [[("day", "2")], [("day", "3")], [("day", "4")]]).min' h),
              some ((daySet [[("day", "1")], [("day", "2")], [("day", "3")]] ∩
                daySet [[("day", "2")], [("day", "3")], [("day", "4")]]).max' h))
          else (none, none)) :=
  ⟨by decide, by decide,
    C6_tick_day_intersection.1 _ _ _ _ (by decide) (by decide)⟩

/-! ### C5 — Gini coefficient -/

/-- Helper: `clamp` lands in the interval. -/
theorem clamp_bounds (x lo hi : ℚ) (h : lo ≤ hi) :
    lo ≤ clamp x lo hi ∧ clamp x lo hi ≤ hi := by
  unfold clamp
  split_ifs with h1 h2 <;> constructor <;> linarith

/-- Helper: filtering the identity out of a fully-`some` list. -/
theorem filterMap_id_map_some (xs : List ℚ) : (xs.map some).filterMap id = xs := by
  induction xs with
  | nil => rfl
  | cons x rest ih => simp [ih]

/-- Helper: a replicated `some` filters to the replicated value. -/
theorem filterMap_id_replicate_some (n : ℕ) (c : ℚ) :
    (List.replicate n (some c)).filterMap id = List.replicate n c := by
  induction n with
  | zero => rfl
  | succ m ih => simp [List.replicate_succ, ih]

/-- Helper: folding `min` over a replicate of the seed gives the seed. -/
theorem foldl_min_replicate (m : ℕ) (c : ℚ) :
    (List.replicate m c).foldl min c = c := by
  induction m with
  | zero => rfl
  | succ k ih => simpa [List.replicate_succ, min_self] using ih

/-- Helper: sorting a constant list is the identity. -/
theorem insertionSort_replicate (n : ℕ) (c : ℚ) :
    List.insertionSort (· ≤ ·) (List.replicate n c) = List.replicate n c := by
  rw [List.eq_replicate_iff]
  refine ⟨?_, ?_⟩
  · rw [(List.perm_insertionSort _ _).length_eq, List.length_replicate]
  · intro b hb
    exact List.eq_of_mem_replicate ((List.mem_insertionSort _).mp hb)

/-- Helper: the rank-weighted cumulative sum of a constant list. -/
theorem weightedCum_replicate (m k : ℕ) (c : ℚ) :
    weightedCum k (List.replicate m c) =
      c * m * k + c * m * (m - 1) / 2 := by
  induction m generalizing k with
  | zero => simp [weightedCum]
  | succ j ih =>
    rw [List.replicate_succ, weightedCum, ih (k + 1)]
    push_cast
    ring

/-- Claim C5.  For every non-empty list of finite values `gini` is defined and
lies in [0,1] (it shifts by the minimum when negatives are present,
returns 0 when the post-shift total is ≤ 0, and otherwise clamps the
closed form); a constant-valued non-empty list gives exactly 0; the empty
input is undefined. -/
theorem C5_gini :
    (∀ xs : List ℚ, xs ≠ [] → ∃ g, gini (xs.map some) = some g ∧ 0 ≤ g ∧ g ≤ 1) ∧
    (∀ (n : ℕ) (c : ℚ), 0 < n → gini (List.replicate n (some c)) = some 0) ∧
    gini ([] : List (Option ℚ)) = none := by
  refine ⟨?_, ?_, rfl⟩
  · intro xs hne
    rw [gini, filterMap_id_map_some]
    obtain ⟨x, rest, rfl⟩ : ∃ y t, xs = y :: t := by
      cases xs with
      | nil => exact absurd rfl hne
      | cons y t => exact ⟨y, t, rfl⟩
    simp only
    split_ifs <;>
      first
      | exact ⟨0, rfl, le_refl 0, by norm_num⟩
      | exact ⟨_, rfl, (clamp_bounds _ 0 1 (by norm_num)).1,
          (clamp_bounds _ 0 1 (by norm_num)).2⟩
  · intro n c hn
    obtain ⟨m, rfl⟩ : ∃ m, n = m + 1 := ⟨n - 1, by omega⟩
    rw [gini, filterMap_id_replicate_some, List.replicate_succ]
    simp only [foldl_min_replicate]
    by_cases hc : c < 0
    · rw [if_pos hc, ← List.replicate_succ, List.map_replicate]
      have hz : c - c = 0 := by ring
      rw [hz, insertionSort_replicate]
      rw [if_pos (le_of_eq (by simp [List.sum_replicate]))]
    · rw [if_neg hc, ← List.replicate_succ, insertionSort_replicate]
      have hlen : (List.replicate (m + 1) c).length = m + 1 := List.length_replicate _ _
      have hsum : (List.replicate (m + 1) c).sum = ((m : ℚ) + 1) * c := by
        rw [List.sum_replicate, nsmul_eq_mul]
        push_cast
        ring
      by_cases htot : (List.replicate (m + 1) c).sum ≤ 0
      · rw [if_pos htot]
      · rw [if_neg htot]
        have hc0 : 0 < c := by
          by_contra hc0
          push_neg at hc0
          exact htot (by
            rw [hsum]
            apply mul_nonpos_of_nonneg_of_nonpos _ hc0
            positivity)
        have hcum : weightedCum 1 (List.replicate (m + 1) c) =
            c * ((m : ℚ) + 1) * ((m : ℚ) + 2) / 2 := by
          rw [weightedCum_replicate]
          push_cast
          ring
        rw [hcum, hlen, hsum]
        have hval : c * ((m : ℚ) + 1) * ((m : ℚ) + 2) / 2 * 2 /
            (((m : ℚ) + 1) * (((m : ℚ) + 1) * c)) - (((m : ℚ) + 1) + 1) / ((m : ℚ) + 1) = 0 := by
          have hm1 : ((m : ℚ) + 1) ≠ 0 := by positivity
          field_simp
          ring
        have hm1 : ((m : ℚ) + 1) ≠ 0 := by positivity
        have harg : 2 * (c * ((m : ℚ) + 1) * ((m : ℚ) + 2) / 2) /
            (((m + 1 : ℕ) : ℚ) * (((m : ℚ) + 1) * c)) - (((m + 1 : ℕ) : ℚ) + 1) / ((m + 1 : ℕ) : ℚ) = 0 := by
          push_cast
          field_simp
          ring
        rw [harg]
        rw [show clamp 0 0 1 = 0 from rfl]

/-- Claim C5, witness: the distribution `[0,0,0,1]` is in range, and a constant
list has Gini exactly 0. -/
theorem C5_witness :
    (([0, 0, 0, 1] : List ℚ) ≠ []) ∧
      (∃ g, gini (([0, 0, 0, 1] : List ℚ).map some) = some g ∧ 0 ≤ g ∧ g ≤ 1) ∧
      gini (List.replicate 3 (some (5 : ℚ))) = some 0 :=
  ⟨by decide, C5_gini.1 [0, 0, 0, 1] (by decide), C5_gini.2.1 3 5 (by decide)⟩

/-! ### C9 — Pearson correlation -/

/-- Helper: the retained pairs of the swapped call are the swapped
retained pairs. -/
theorem validPairs_swap (a b : List (Option ℝ)) :
    validPairs b a = (validPairs a b).map Prod.swap := by
  unfold validPairs
  rw [← List.zip_swap a b, List.filterMap_map, List.map_filterMap]
  congr 1
  funext xy
  obtain ⟨o1, o2⟩ := xy
  cases o1 <;> cases o2 <;> rfl

/-- Helper: a centered sum of squares is nonnegative. -/
theorem centeredSumSq_nonneg (xs : List ℝ) : 0 ≤ centeredSumSq xs := by
  apply List.sum_nonneg
  intro x hx
  obtain ⟨y, _, rfl⟩ := List.mem_map.mp hx
  positivity

/-- Claim C9.  Pearson correlation is symmetric, and it is undefined exactly
when fewer than 3 index positions have both values present, or when either
retained series has zero variance (zero centered sum of squares). -/
theorem C9_pearson_corr (a b : List (Option ℝ)) :
    pearson_corr a b = pearson_corr b a ∧
      (pearson_corr a b = none ↔
        (validPairs a b).length < 3 ∨
          centeredSumSq ((validPairs a b).map Prod.fst) = 0 ∨
          centeredSumSq ((validPairs a b).map Prod.snd) = 0) := by
  constructor
  · unfold pearson_corr
    rw [validPairs_swap a b]
    simp only [List.length_map, List.map_map]
    have hfst : Prod.fst ∘ (Prod.swap : ℝ × ℝ → ℝ × ℝ) = Prod.snd := rfl
    have hsnd : Prod.snd ∘ (Prod.swap : ℝ × ℝ → ℝ × ℝ) = Prod.fst := rfl
    rw [hfst, hsnd]
    by_cases hlen : (validPairs a b).length < 3
    · rw [if_pos hlen, if_pos hlen]
    · rw [if_neg hlen, if_neg hlen]
      by_cases hvar : centeredSumSq ((validPairs a b).map Prod.fst) ≤ 0 ∨
          centeredSumSq ((validPairs a b).map Prod.snd) ≤ 0
      · rw [if_pos hvar, if_pos hvar.symm]
      · rw [if_neg hvar, if_neg (fun hc => hvar hc.symm)]
        have hfun : ((fun xy : ℝ × ℝ =>
              (xy.1 - fmeanR ((validPairs a b).map Prod.snd)) *
                (xy.2 - fmeanR ((validPairs a b).map Prod.fst))) ∘ Prod.swap) =
            (fun xy : ℝ × ℝ =>
              (xy.1 - fmeanR ((validPairs a b).map Prod.fst)) *
                (xy.2 - fmeanR ((validPairs a b).map Prod.snd))) := by
          funext xy
          simp only [Function.comp_apply, Prod.fst_swap, Prod.snd_swap]
          ring
        rw [hfun, mul_comm (centeredSumSq ((validPairs a b).map Prod.snd))]
  · unfold pearson_corr
    by_cases hlen : (validPairs a b).length < 3
    · simp only [if_pos hlen, true_iff]
      exact Or.inl hlen
    · rw [if_neg hlen]
      by_cases hvar : centeredSumSq ((validPairs a b).map Prod.fst) ≤ 0 ∨
          centeredSumSq ((validPairs a b).map Prod.snd) ≤ 0
      · rw [if_pos hvar]
        constructor
        · intro _
          rcases hvar with h | h
          · exact Or.inr (Or.inl (le_antisymm h (centeredSumSq_nonneg _)))
          · exact Or.inr (Or.inr (le_antisymm h (centeredSumSq_nonneg _)))
        · intro _
          rfl
      · rw [if_neg hvar]
        push_neg at hvar
        constructor
        · intro h
          exact Option.noConfusion h
        · intro h
          rcases h with h | h | h
          · exact absurd h hlen
          · exact absurd h (ne_of_gt hvar.1)
          · exact absurd h (ne_of_gt hvar.2)

/-! ### C8 — percentile interpolation -/

/-- Helper: indexing an ascending-sorted list is monotone. -/
theorem sorted_getD_le (xs : List ℚ) (hs : xs.Sorted (· ≤ ·)) {a b : ℕ}
    (hab : a ≤ b) (hb : b < xs.length) : xs.getD a 0 ≤ xs.getD b 0 := by
  have ha : a < xs.length := lt_of_le_of_lt hab hb
  rw [List.getD_eq_getElem?_getD, List.getD_eq_getElem?_getD,
    List.getElem?_eq_getElem ha, List.getElem?_eq_getElem hb]
  simpa using hs.rel_get_of_le (a := ⟨a, ha⟩) (b := ⟨b, hb⟩) hab

/-- Claim C8.  On a fixed non-empty ascending-sorted input, the interpolated
percentile is monotonically non-decreasing in `p` over [0,1], and the 50th
percentile is the textbook median for both odd and even lengths. -/
theorem C8_percentile :
    (∀ (xs : List ℚ) (p p' : ℚ), xs.Sorted (· ≤ ·) → xs ≠ [] →
      0 ≤ p → p ≤ p' → p' ≤ 1 → pct xs p ≤ pct xs p') ∧
    (∀ xs : List ℚ, xs.Sorted (· ≤ ·) → xs ≠ [] → pct xs (1 / 2) = listMedian xs) := by
  constructor
  · intro xs p p' hs hne hp hpp hp1
    simp only [pct]
    by_cases h1 : xs.length = 1
    · rw [if_pos h1, if_pos h1]
    · rw [if_neg h1, if_neg h1]
      have h0 : xs.length ≠ 0 := by simpa [List.length_eq_zero] using hne
      have hlen2 : 2 ≤ xs.length := by omega
      have hN1 : (1 : ℚ) ≤ (xs.length : ℚ) - 1 := by
        have : (2 : ℚ) ≤ (xs.length : ℚ) := by exact_mod_cast hlen2
        linarith
      have hk0 : 0 ≤ ((xs.length : ℚ) - 1) * p := mul_nonneg (by linarith) hp
      have hkk : ((xs.length : ℚ) - 1) * p ≤ ((xs.length : ℚ) - 1) * p' :=
        mul_le_mul_of_nonneg_left hpp (by linarith)
      have hkmax : ((xs.length : ℚ) - 1) * p' ≤ (xs.length : ℚ) - 1 := by
        have := mul_le_mul_of_nonneg_left hp1 (show (0 : ℚ) ≤ (xs.length : ℚ) - 1 by linarith)
        simpa using this
      have hi0 : 0 ≤ ⌊((xs.length : ℚ) - 1) * p⌋ := Int.floor_nonneg.mpr hk0
      have hi0' : 0 ≤ ⌊((xs.length : ℚ) - 1) * p'⌋ := Int.floor_nonneg.mpr (le_trans hk0 hkk)
      have hii : ⌊((xs.length : ℚ) - 1) * p⌋ ≤ ⌊((xs.length : ℚ) - 1) * p'⌋ :=
        Int.floor_le_floor hkk
      have himax : ⌊((xs.length : ℚ) - 1) * p'⌋ ≤ (xs.length : ℤ) - 1 := by
        have h2 : ⌊((xs.length : ℚ) - 1) * p'⌋ ≤ ⌊((xs.length : ℚ) - 1)⌋ :=
          Int.floor_le_floor hkmax
        have hfl : ⌊((xs.length : ℚ) - 1)⌋ = (xs.length : ℤ) - 1 := by
          rw [show ((xs.length : ℚ) - 1) = (((xs.length : ℤ) - 1 : ℤ) : ℚ) by push_cast; ring,
            Int.floor_intCast]
        rwa [hfl] at h2
      have ht0 : 0 ≤ ((xs.length : ℚ) - 1) * p - (⌊((xs.length : ℚ) - 1) * p⌋ : ℚ) :=
        sub_nonneg.mpr (Int.floor_le _)
      have ht1 : ((xs.length : ℚ) - 1) * p - (⌊((xs.length : ℚ) - 1) * p⌋ : ℚ) ≤ 1 := by
        have := Int.lt_floor_add_one (((xs.length : ℚ) - 1) * p)
        linarith
      have ht0' : 0 ≤ ((xs.length : ℚ) - 1) * p' - (⌊((xs.length : ℚ) - 1) * p'⌋ : ℚ) :=
        sub_nonneg.mpr (Int.floor_le _)
      have ht1' : ((xs.length : ℚ) - 1) * p' - (⌊((xs.length : ℚ) - 1) * p'⌋ : ℚ) ≤ 1 := by
        have := Int.lt_floor_add_one (((xs.length : ℚ) - 1) * p')
        linarith
      set i : ℤ := ⌊((xs.length : ℚ) - 1) * p⌋ with hidef
      set i' : ℤ := ⌊((xs.length : ℚ) - 1) * p'⌋ with hi'def
      have hjup : min (i + 1) ((xs.length : ℤ) - 1) ≤ (xs.length : ℤ) - 1 :=
        min_le_right _ _
      have hjlo : i ≤ min (i + 1) ((xs.length : ℤ) - 1) :=
        le_min (by omega) (le_trans hii himax)
      have hj'lo : i' ≤ min (i' + 1) ((xs.length : ℤ) - 1) :=
        le_min (by omega) himax
      have hj'up : min (i' + 1) ((xs.length : ℤ) - 1) ≤ (xs.length : ℤ) - 1 :=
        min_le_right _ _
      have hAB : xs.getD i.toNat 0 ≤ xs.getD (min (i + 1) ((xs.length : ℤ) - 1)).toNat 0 := by
        apply sorted_getD_le xs hs
        · omega
        · omega
      have hAB' : xs.getD i'.toNat 0 ≤
          xs.getD (min (i' + 1) ((xs.length : ℤ) - 1)).toNat 0 := by
        apply sorted_getD_le xs hs
        · omega
        · omega
      rcases lt_or_eq_of_le hii with hlt | heq
      · -- the floors differ: chain through xs[j] ≤ xs[i']
        have hBA' : xs.getD (min (i + 1) ((xs.length : ℤ) - 1)).toNat 0 ≤
            xs.getD i'.toNat 0 := by
          apply sorted_getD_le xs hs
          · omega
          · omega
        have hstep1 : xs.getD i.toNat 0 *
              (1 - (((xs.length : ℚ) - 1) * p - (i : ℚ))) +
              xs.getD (min (i + 1) ((xs.length : ℤ) - 1)).toNat 0 *
                (((xs.length : ℚ) - 1) * p - (i : ℚ)) ≤
            xs.getD (min (i + 1) ((xs.length : ℤ) - 1)).toNat 0 := by
          nlinarith [mul_nonneg (sub_nonneg.mpr ht1)
            (sub_nonneg.mpr hAB)]
        have hstep3 : xs.getD i'.toNat 0 ≤
            xs.getD i'.toNat 0 * (1 - (((xs.length : ℚ) - 1) * p' - (i' : ℚ))) +
              xs.getD (min (i' + 1) ((xs.length : ℤ) - 1)).toNat 0 *
                (((xs.length : ℚ) - 1) * p' - (i' : ℚ)) := by
          nlinarith [mul_nonneg ht0' (sub_nonneg.mpr hAB')]
        linarith
      · -- same floor: linear interpolation with a common slope
        rw [← heq]
        have htt : ((xs.length : ℚ) - 1) * p - (i : ℚ) ≤
            ((xs.length : ℚ) - 1) * p' - (i : ℚ) := by linarith
        nlinarith [mul_nonneg (sub_nonneg.mpr htt) (sub_nonneg.mpr hAB)]
  · intro xs hs hne
    simp only [pct, listMedian]
    by_cases h1 : xs.length = 1
    · rw [if_pos h1]
      rw [h1]
      norm_num
    · rw [if_neg h1]
      have h0 : xs.length ≠ 0 := by simpa [List.length_eq_zero] using hne
      have hlen2 : 2 ≤ xs.length := by omega
      rcases Nat.even_or_odd xs.length with ⟨m, hm⟩ | ⟨m, hm⟩
      · -- even length 2m, m ≥ 1
        have hm1 : 1 ≤ m := by omega
        have hk : ((xs.length : ℚ) - 1) * (1 / 2) = (m : ℚ) - 1 / 2 := by
          rw [hm]
          push_cast
          ring
        have hfloor : ⌊((xs.length : ℚ) - 1) * (1 / 2)⌋ = (m : ℤ) - 1 := by
          rw [hk, Int.floor_eq_iff]
          constructor
          · push_cast
            linarith
          · push_cast
            linarith
        rw [hfloor, hk]
        have hj : min ((m : ℤ) - 1 + 1) ((xs.length : ℤ) - 1) = (m : ℤ) := by
          rw [hm]
          push_cast
          omega
        rw [hj]
        have hiN : ((m : ℤ) - 1).toNat = m - 1 := by omega
        have hjN : ((m : ℤ)).toNat = m := by omega
        rw [hiN, hjN]
        have hmod : ¬ xs.length % 2 = 1 := by omega
        rw [if_neg hmod]
        have hdiv : xs.length / 2 = m := by omega
        rw [hdiv]
        push_cast
        ring
      · -- odd length 2m+1, m ≥ 1
        have hm1 : 1 ≤ m := by omega
        have hk : ((xs.length : ℚ) - 1) * (1 / 2) = (m : ℚ) := by
          rw [hm]
          push_cast
          ring
        have hfloor : ⌊((xs.length : ℚ) - 1) * (1 / 2)⌋ = (m : ℤ) := by
          rw [hk, Int.floor_natCast]
        rw [hfloor, hk]
        have hj : min ((m : ℤ) + 1) ((xs.length : ℤ) - 1) = (m : ℤ) + 1 := by
          rw [hm]
          push_cast
          omega
        rw [hj]
        have hiN : ((m : ℤ)).toNat = m := by omega
        have hjN : ((m : ℤ) + 1).toNat = m + 1 := by omega
        rw [hiN, hjN]
        have hmod : xs.length % 2 = 1 := by omega
        rw [if_pos hmod]
        have hdiv : xs.length / 2 = m := by omega
        rw [hdiv]
        push_cast
        ring

/-- Claim C8, witness at the concrete sorted list `[1, 2, 4, 10]`. -/
theorem C8_witness :
    ([1, 2, 4, 10] : List ℚ).Sorted (· ≤ ·) ∧
      (0 : ℚ) ≤ 1 / 4 ∧ (1 / 4 : ℚ) ≤ 3 / 4 ∧ (3 / 4 : ℚ) ≤ 1 ∧
      pct [1, 2, 4, 10] (1 / 4) ≤ pct [1, 2, 4, 10] (3 / 4) ∧
      pct [1, 2, 4, 10] (1 / 2) = listMedian [1, 2, 4, 10] :=
  ⟨by decide, by norm_num, by norm_num, by norm_num,
    C8_percentile.1 [1, 2, 4, 10] (1 / 4) (3 / 4) (by decide) (by decide)
      (by norm_num) (by norm_num) (by norm_num),
    C8_percentile.2 [1, 2, 4, 10] (by decide) (by decide)⟩

/-! ### C4 — Moran's I -/

/-- Helper: a pair with an absent second cell contributes nothing to
`num`. -/
theorem pairTerm_none (a : Option ℚ) (mean : ℚ) : pairTerm a none mean = 0 := by
  cases a <;> rfl

/-- Helper: a pair with an absent second cell contributes nothing to
`s0`. -/
theorem pairWeight_none (a : Option ℚ) : pairWeight a none = 0 := by
  cases a <;> rfl

/-- Helper: the unordered adjacent pairs split into the right-edges and the
down-edges, each an injective image of the guarded cell set. -/
theorem gridAdjPairs_eq (w h : ℕ) :
    gridAdjPairs w h =
      ((Finset.range w ×ˢ Finset.range h).filter (fun p => p.1 + 1 < w)).image
          (fun p => (p, (p.1 + 1, p.2))) ∪
        ((Finset.range w ×ˢ Finset.range h).filter (fun p => p.2 + 1 < h)).image
          (fun p => (p, (p.1, p.2 + 1))) := by
  ext pq
  obtain ⟨⟨x1, y1⟩, ⟨x2, y2⟩⟩ := pq
  simp only [gridAdjPairs, Finset.mem_filter, Finset.mem_product, Finset.mem_range,
    Finset.mem_union, Finset.mem_image, adjacentPair, rowMajorBefore, Prod.mk.injEq]
  constructor
  · rintro ⟨⟨⟨hx1, hy1⟩, hx2, hy2⟩, hadj, hord⟩
    rcases hadj with ⟨hx, hy⟩ | ⟨hy, hx⟩
    · right
      have hkey : x2 = x1 ∧ y2 = y1 + 1 := by
        rcases hy with hy | hy <;> rcases hord with hord | ⟨hord1, hord2⟩ <;> omega
      refine ⟨(x1, y1), ⟨⟨hx1, hy1⟩, show y1 + 1 < h by omega⟩, ?_⟩
      simp only [Prod.mk.injEq, true_and, and_self, eq_self_iff_true]
      omega
    · left
      have hkey : y2 = y1 ∧ x2 = x1 + 1 := by
        rcases hx with hx | hx <;> rcases hord with hord | ⟨hord1, hord2⟩ <;> omega
      refine ⟨(x1, y1), ⟨⟨hx1, hy1⟩, show x1 + 1 < w by omega⟩, ?_⟩
      simp only [Prod.mk.injEq, true_and, and_self, eq_self_iff_true]
      omega
  · rintro (⟨⟨a, b⟩, ⟨⟨ha, hb⟩, hguard⟩, heq⟩ | ⟨⟨a, b⟩, ⟨⟨ha, hb⟩, hguard⟩, heq⟩) <;>
      simp only [Prod.mk.injEq] at heq <;>
      refine ⟨⟨⟨by omega, by omega⟩, by omega, by omega⟩, by omega, by omega⟩

/-- Helper: the sum over the unordered adjacent pairs of any pair function
vanishing on absent right neighbors equals the row-by-row loop of
`morans_i_grid`. -/
theorem grid_pair_sum (F : Option ℚ → Option ℚ → ℚ) (hF : ∀ a, F a none = 0)
    (values : List (Option ℚ)) (w h : ℕ) :
    ∑ pq ∈ gridAdjPairs w h,
        F (cellAt values w pq.1.1 pq.1.2) (cellAt values w pq.2.1 pq.2.2) =
      ∑ y ∈ Finset.range h, ∑ x ∈ Finset.range w,
        (F (cellAt values w x y) (rightCell values w x y)
          + F (cellAt values w x y) (downCell values w h x y)) := by
  have hdisj : Disjoint
      (((Finset.range w ×ˢ Finset.range h).filter (fun p => p.1 + 1 < w)).image
        (fun p => (p, (p.1 + 1, p.2))))
      (((Finset.range w ×ˢ Finset.range h).filter (fun p => p.2 + 1 < h)).image
        (fun p => (p, (p.1, p.2 + 1)))) := by
    rw [Finset.disjoint_left]
    rintro pq hpq1 hpq2
    obtain ⟨⟨a, b⟩, _, rfl⟩ := Finset.mem_image.mp hpq1
    obtain ⟨⟨a', b'⟩, _, heq⟩ := Finset.mem_image.mp hpq2
    simp only [Prod.mk.injEq] at heq
    omega
  have hinj1 : Set.InjOn (fun p : ℕ × ℕ => (p, (p.1 + 1, p.2)))
      ((Finset.range w ×ˢ Finset.range h).filter (fun p => p.1 + 1 < w)) := by
    intro p _ p' _ hpp
    exact congrArg Prod.fst hpp
  have hinj2 : Set.InjOn (fun p : ℕ × ℕ => (p, (p.1, p.2 + 1)))
      ((Finset.range w ×ˢ Finset.range h).filter (fun p => p.2 + 1 < h)) := by
    intro p _ p' _ hpp
    exact congrArg Prod.fst hpp
  rw [gridAdjPairs_eq w h, Finset.sum_union hdisj,
    Finset.sum_image hinj1, Finset.sum_image hinj2,
    Finset.sum_filter, Finset.sum_filter, ← Finset.sum_add_distrib,
    Finset.sum_product, Finset.sum_comm]
  apply Finset.sum_congr rfl
  intro y _
  apply Finset.sum_congr rfl
  intro x _
  congr 1
  · unfold rightCell
    split_ifs with hx
    · rfl
    · exact (hF _).symm
  · unfold downCell
    split_ifs with hy
    · rfl
    · exact (hF _).symm

/-- Claim C4.  On a genuine row-major grid (`values.length = w * h`),
`morans_i_grid` is undefined exactly when fewer than 3 cells are finite,
the centered sum of squares is ≤ 0, or the accumulated pair weight is
≤ 0; otherwise it is exactly `(n / s0) * (num / denom)`, where `num`
accumulates `2·(v_a - mean)·(v_b - mean)` and `s0` accumulates 2 over
every unordered 4-neighbor adjacent pair of finite cells. -/
theorem C4_morans_i_grid (values : List (Option ℚ)) (w h : ℕ)
    (hlen : values.length = w * h) :
    morans_i_grid values w h =
      if (finiteVals values).length < 3 ∨ moranDenom values ≤ 0 ∨
          specS0 values w h ≤ 0 then none
      else
        some ((((finiteVals values).length : ℚ) / specS0 values w h) *
          (specNum values w h (moranMean values) / moranDenom values)) := by
  have hnum : moranNum values w h (moranMean values) =
      specNum values w h (moranMean values) :=
    (grid_pair_sum (fun a b => pairTerm a b (moranMean values))
      (fun a => pairTerm_none a _) values w h).symm
  have hs0 : moranS0 values w h = specS0 values w h :=
    (grid_pair_sum pairWeight pairWeight_none values w h).symm
  simp only [morans_i_grid, moranNum, moranS0] at hnum hs0 ⊢
  by_cases hwh : w = 0 ∨ h = 0
  · rw [if_pos hwh]
    have hv : values = [] := by
      rw [← List.length_eq_zero, hlen]
      rcases hwh with h0 | h0 <;> simp [h0]
    rw [if_pos]
    left
    simp [hv, finiteVals]
  · rw [if_neg hwh]
    by_cases hn : (finiteVals values).length < 3
    · rw [if_pos hn, if_pos (Or.inl hn)]
    · rw [if_neg hn]
      by_cases hd : moranDenom values ≤ 0
      · rw [if_pos hd, if_pos (Or.inr (Or.inl hd))]
      · rw [if_neg hd]
        rw [hs0]
        by_cases hsle : specS0 values w h ≤ 0
        · rw [if_pos hsle, if_pos (Or.inr (Or.inr hsle))]
        · rw [if_neg hsle, if_neg (by push_neg; exact ⟨by omega, lt_of_not_le hd,
            lt_of_not_le hsle⟩)]
          rw [hnum]

/-- Claim C4, witness at the concrete 2×2 grid `[1, 2, 3, 4]`. -/
theorem C4_witness :
    ([some 1, some 2, some 3, some 4] : List (Option ℚ)).length = 2 * 2 ∧
      morans_i_grid [some 1, some 2, some 3, some 4] 2 2 =
        (if (finiteVals [some 1, some 2, some 3, some 4]).length < 3 ∨
            moranDenom [some 1, some 2, some 3, some 4] ≤ 0 ∨
            specS0 [some 1, some 2, some 3, some 4] 2 2 ≤ 0 then none
          else
            some ((((finiteVals [some 1, some 2, some 3, some 4]).length : ℚ) /
                specS0 [some 1, some 2, some 3, some 4] 2 2) *
              (specNum [some 1, some 2, some 3, some 4] 2 2
                  (moranMean [some 1, some 2, some 3, some 4]) /
                moranDenom [some 1, some 2, some 3, some 4]))) :=
  ⟨by decide, C4_morans_i_grid [some 1, some 2, some 3, some 4] 2 2 (by decide)⟩

end ProcIso
